import Mathlib

/-!
Shallow embedding of the incremental-compilation core of the
vite-plugin-vue repository (packages/plugin-vue): the descriptor cache
(src/utils/descriptorCache.ts), the block diff and hot-update classifier
(handleHotUpdate.ts), the virtual-address encoder (main.ts) and the
source-map stitcher (transformMain in main.ts).

External collaborators (node path/crypto, the vue compiler-sfc parser, the
file system, vite's module resolution and isCSSRequest) are passed in as
function parameters, mirroring the interfaces the TypeScript code consumes.
JavaScript strings are modelled as Lean String, JS object attribute maps as
association lists in insertion order, and JS truthiness is made explicit at
each use site.
-/

namespace PluginVue

/-- Value of one attribute in an SFC block attribute map: in the
TypeScript sources the type is string or literal true. -/
inductive AttrVal where
  | str (s : String)
  | tru
deriving DecidableEq

/-- JS truthiness of an attribute value: literal true is truthy, a string
is truthy iff non-empty. -/
def attrTruthy : AttrVal → Bool
  | .str s => s ≠ ""
  | .tru => true

/-- JS string coercion of an attribute value (String(true) is "true"). -/
def attrText : AttrVal → String
  | .str s => s
  | .tru => "true"

/-- JS truthiness of an optional string (undefined and "" are falsy). -/
def optTruthy : Option String → Bool
  | some s => s ≠ ""
  | none => false

/-- JS template interpolation of an optional string (undefined prints as
the text "undefined"). -/
def optText : Option String → String
  | some s => s
  | none => "undefined"

/-- One SFC block as used by the diff engine and the address encoder:
content, attribute map in insertion order, optional lang, optional src,
style-only scoped flag (scoped is a Lean keyword, hence the field name scopedFlag), and the custom-block type tag. -/
structure SFCBlock where
  type : String := ""
  content : String := ""
  attrs : List (String × AttrVal) := []
  lang : Option String := none
  src : Option String := none
  scopedFlag : Bool := false
deriving DecidableEq

/-- First-match lookup in an attribute association list (JS object
property access; objects never hold duplicate keys). -/
def lookupA (k : String) : List (String × AttrVal) → Option AttrVal
  | [] => none
  | (n, v) :: rest => if n = k then some v else lookupA k rest

/-- Structural parse of one composite source file, extended with the
plugin's id field.  shouldForceReload is the predicate the previously
resolved compiler stores on the descriptor (spec section 3,
forceReloadPredicate). -/
structure SFCDescriptor where
  filename : String := ""
  id : String := ""
  script : Option SFCBlock := none
  scriptSetup : Option SFCBlock := none
  template : Option SFCBlock := none
  styles : List SFCBlock := []
  customBlocks : List SFCBlock := []
  cssVars : List String := []
  shouldForceReload : List String → Bool := fun _ => false

/-- Result of the external compiler.parse call plus the id stamping:
descriptor and the parse error list (errors are opaque here). -/
structure ParseResult where
  descriptor : SFCDescriptor
  errors : List String

/-- The subset of ResolvedOptions that the cache and classifier read. -/
structure ResolvedOpts where
  root : String := ""
  isProduction : Bool := false
  sourceMap : Bool := true

/-! ### Descriptor cache (src/utils/descriptorCache.ts)

The three module-level Maps are modelled as association lists with
first-match lookup; set removes any older binding so each namespace holds
at most one entry per filename. -/

abbrev DescMap := List (String × SFCDescriptor)

/-- Map.get. -/
def mapGet (m : DescMap) (k : String) : Option SFCDescriptor :=
  match m with
  | [] => none
  | (n, v) :: rest => if n = k then some v else mapGet rest k

/-- Map.delete. -/
def mapDelete (m : DescMap) (k : String) : DescMap :=
  m.filter (fun p => p.1 ≠ k)

/-- Map.set. -/
def mapSet (m : DescMap) (k : String) (v : SFCDescriptor) : DescMap :=
  (k, v) :: mapDelete m k

/-- The process-wide cache state: cache, hmrCache and prevCache. -/
structure CacheState where
  cache : DescMap := []
  hmrCache : DescMap := []
  prevCache : DescMap := []

/-- createDescriptor: stamps the id (hash of the root-relative path, plus
the full source only in production) on the externally parsed descriptor
and stores it into cache or hmrCache per the hmr flag.  hashFn stands for
the node:crypto sha256/hex/8 hash and normRel for
slash(path.normalize(path.relative(root, filename))). -/
def createDescriptor (hashFn : String → String) (normRel : String → String → String)
    (opts : ResolvedOpts) (st : CacheState) (filename source : String)
    (parsed : ParseResult) (hmr : Bool) : ParseResult × CacheState :=
  let normalizedPath := normRel opts.root filename
  let d := { parsed.descriptor with
             id := hashFn (normalizedPath ++ (if opts.isProduction then source else "")) }
  let st' :=
    if hmr then { st with hmrCache := mapSet st.hmrCache filename d }
    else { st with cache := mapSet st.cache filename d }
  (⟨d, parsed.errors⟩, st')

/-- getPrevDescriptor. -/
def getPrevDescriptor (st : CacheState) (filename : String) : Option SFCDescriptor :=
  mapGet st.prevCache filename

/-- invalidateDescriptor: moves the cache (or hmrCache) entry, when
present, into prevCache and removes it from the active namespace. -/
def invalidateDescriptor (st : CacheState) (filename : String) (hmr : Bool) : CacheState :=
  let c := if hmr then st.hmrCache else st.cache
  let prev := mapGet c filename
  let c' := mapDelete c filename
  let st₁ := if hmr then { st with hmrCache := c' } else { st with cache := c' }
  match prev with
  | some p => { st₁ with prevCache := mapSet st₁.prevCache filename p }
  | none => st₁

/-- Errors getDescriptor can propagate: a file-read failure or the first
parse error, thrown when createIfNotFound created the entry outside hmr
mode. -/
inductive GetDescriptorError where
  | ioError (e : String)
  | parseError (e : String)
deriving DecidableEq

/-- getDescriptor: cached entry, or on miss with createIfNotFound a
synchronous read (readFile models fs.readFileSync, returning an exception
as Except.error) followed by createDescriptor; with errors and hmr false
the first parse error is thrown. -/
def getDescriptor (hashFn : String → String) (normRel : String → String → String)
    (readFile : String → Except String String) (parse : String → ParseResult)
    (opts : ResolvedOpts) (st : CacheState) (filename : String)
    (createIfNotFound : Bool) (hmr : Bool) :
    Except GetDescriptorError (Option SFCDescriptor) × CacheState :=
  let c := if hmr then st.hmrCache else st.cache
  match mapGet c filename with
  | some d => (.ok (some d), st)
  | none =>
    if createIfNotFound then
      match readFile filename with
      | .error e => (.error (.ioError e), st)
      | .ok source =>
        let r := createDescriptor hashFn normRel opts st filename source (parse source) hmr
        match r.1.errors with
        | [] => (.ok (some r.1.descriptor), r.2)
        | e :: _ =>
          if hmr then (.ok (some r.1.descriptor), r.2)
          else (.error (.parseError e), r.2)
    else (.ok none, st)

/-- The decoded query of a sub-block virtual address, as far as the cache
functions read it. -/
structure VueQuery where
  src : Option String := none
  scopedFlag : Bool := false
deriving DecidableEq

/-- getSrcDescriptor: reverse lookup from a src-linked file to its owning
descriptor; for a scoped link the key carries the owner id (a JS template
literal prints an undefined query.src as the text "undefined"). -/
def getSrcDescriptor (st : CacheState) (filename : String) (query : VueQuery) :
    Option SFCDescriptor :=
  if query.scopedFlag then
    mapGet st.cache (filename ++ "?src=" ++ optText query.src)
  else
    mapGet st.cache filename

/-- setSrcDescriptor: registers the external file under the plain path, or
under path?src=ownerId when the link is scoped. -/
def setSrcDescriptor (st : CacheState) (filename : String) (entry : SFCDescriptor)
    (scopedF : Bool) : CacheState :=
  if scopedF then
    { st with cache := mapSet st.cache (filename ++ "?src=" ++ entry.id) entry }
  else
    { st with cache := mapSet st.cache filename entry }

/-! ### String utilities for the pattern-based address matching

The classifier tests live-module urls with regexes and substring
operations; urls are assumed newline-free so the JS dot matches any
character here. -/

/-- Bool substring containment (String.prototype.includes and the plain
substring regexes). -/
def containsSub (s sub : String) : Bool :=
  (List.range (s.toList.length + 1)).any fun i =>
    sub.toList.isPrefixOf (s.toList.drop i)

/-- String.prototype.endsWith. -/
def endsWithSub (s suffix : String) : Bool :=
  suffix.toList.isSuffixOf s.toList

/-- JS word character for the word-boundary and w-class tests. -/
def isWordChar (c : Char) : Bool :=
  c.isAlphanum || c = '_'

/-- Test of the regex type=script followed eventually by an ampersand,
lang, a dot and one or more word characters ending the string (the
getScriptModule pattern). -/
def testScriptLangRE (s : String) : Bool :=
  let l := s.toList
  (List.range (l.length + 1)).any fun i =>
    "type=script".toList.isPrefixOf (l.drop i) &&
    (List.range (l.length + 1)).any fun j =>
      decide (i + 11 ≤ j) && "&lang.".toList.isPrefixOf (l.drop j) &&
      (decide (l.drop (j + 6) ≠ []) && (l.drop (j + 6)).all isWordChar)

/-- Test of the directRequestRE regex: a question mark or ampersand, then
the word direct at a word boundary. -/
def testDirectRE (s : String) : Bool :=
  let l := s.toList
  (List.range (l.length + 1)).any fun i =>
    ((l.drop i).take 7 = "?direct".toList || (l.drop i).take 7 = "&direct".toList) &&
    (match (l.drop (i + 7)).head? with
     | none => true
     | some c => !isWordChar c)

/-! ### Block diff engine (handleHotUpdate.ts) -/

/-- isEqualBlock: both absent is equal, exactly one absent is unequal, a
shared truthy src short-circuits to equal, otherwise contents must match
and the attribute maps must agree key by key with equal key counts. -/
def isEqualBlock (a b : Option SFCBlock) : Bool :=
  match a, b with
  | none, none => true
  | none, some _ => false
  | some _, none => false
  | some a, some b =>
    if optTruthy a.src && optTruthy b.src && a.src == b.src then true
    else if a.content ≠ b.content then false
    else
      let keysA := a.attrs.map Prod.fst
      let keysB := b.attrs.map Prod.fst
      if keysA.length ≠ keysB.length then false
      else keysA.all fun k => lookupA k a.attrs == lookupA k b.attrs

/-- hasScriptChanged: script or scriptSetup blocks differ, or — both
unchanged — a previously resolved import record exists for prev (store
models the ssr-false resolved-script cache read, imports field) and the
new template is absent or its change forces a reload per the stored
predicate. -/
def hasScriptChanged (store : SFCDescriptor → Option (List String))
    (prev next : SFCDescriptor) : Bool :=
  if !isEqualBlock prev.script next.script then true
  else if !isEqualBlock prev.scriptSetup next.scriptSetup then true
  else
    match store prev with
    | some prevImports => next.template.isNone || next.shouldForceReload prevImports
    | none => false

/-- isOnlyTemplateChanged: no script change and all style and custom
blocks pairwise equal with equal counts. -/
def isOnlyTemplateChanged (store : SFCDescriptor → Option (List String))
    (prev next : SFCDescriptor) : Bool :=
  !hasScriptChanged store prev next &&
  decide (prev.styles.length = next.styles.length) &&
  (prev.styles.enum.all fun p => isEqualBlock (some p.2) next.styles[p.1]?) &&
  decide (prev.customBlocks.length = next.customBlocks.length) &&
  (prev.customBlocks.enum.all fun p => isEqualBlock (some p.2) next.customBlocks[p.1]?)

/-! ### Update classifier (handleHotUpdate.ts)

A live module is identified by its url; the importer back-references are
kept as urls too, so the affected set is a deduplicated url list built in
the order the decision rules run. -/

/-- One module of the live module graph snapshot. -/
structure ModuleNode where
  url : String
  importers : List String := []
deriving DecidableEq

/-- Add one url to the affected set (Set.add: no duplicates, insertion
order kept). -/
def addUrl (s : List String) (u : String) : List String :=
  if u ∈ s then s else s ++ [u]

/-- Add a possibly-undefined module url (adding undefined is dropped by
the final filter(Boolean), so it is a no-op here). -/
def addOpt (s : List String) (u : Option String) : List String :=
  match u with
  | some u => addUrl s u
  | none => s

/-- getMainModule: among modules whose url has no type= query or a
type=script one, the first of minimal url length (the stable sort by url
length picks exactly that). -/
def getMainModule (modules : List ModuleNode) : Option ModuleNode :=
  (modules.filter fun m => !containsSub m.url "type=" || containsSub m.url "type=script").foldl
    (fun best m =>
      match best with
      | none => some m
      | some b => if m.url.length < b.url.length then some m else best)
    none

/-- getScriptModule: first module matching the type=script and trailing
lang-extension regex. -/
def getScriptModule (modules : List ModuleNode) : Option ModuleNode :=
  modules.find? fun m => testScriptLangRE m.url

/-- The style-only lang fallback: next.lang or css under JS truthiness. -/
def langOrCss (lang : Option String) : String :=
  match lang with
  | some l => if l = "" then "css" else l
  | none => "css"

/-- The module lookup of the style loop: url contains the indexed style
type query, ends with the block's resolved language extension, and is not
a direct request. -/
def findStyleModule (modules : List ModuleNode) (i : Nat) (next : SFCBlock) :
    Option ModuleNode :=
  modules.find? fun m =>
    containsSub m.url ("type=style&index=" ++ toString i) &&
    endsWithSub m.url ("." ++ langOrCss next.lang) &&
    !testDirectRE m.url

/-- The per-index style loop: i counts from 0 over nextStyles; a missing
or unequal previous block marks the style updated and adds the matching
style module (plus main when that module is inline) or falls back to the
main module. -/
def styleLoop (modules : List ModuleNode) (mainUrl : Option String)
    (prevStyles : List SFCBlock) :
    Nat → List SFCBlock → List String → Bool → List String × Bool
  | _, [], acc, flag => (acc, flag)
  | i, next :: rest, acc, flag =>
    if prevStyles[i]?.isNone || !isEqualBlock prevStyles[i]? (some next) then
      let acc' :=
        match findStyleModule modules i next with
        | some m =>
          let a := addUrl acc m.url
          if containsSub m.url "&inline" then addOpt a mainUrl else a
        | none => addOpt acc mainUrl
      styleLoop modules mainUrl prevStyles (i + 1) rest acc' true
    else
      styleLoop modules mainUrl prevStyles (i + 1) rest acc flag

/-- The per-index custom-block loop (run only when the counts match, so
the previous block at each index exists): an unequal pair adds the module
matching the previous block's type query or falls back to main. -/
def customLoop (modules : List ModuleNode) (mainUrl : Option String) :
    Nat → List (SFCBlock × SFCBlock) → List String → List String
  | _, [], acc => acc
  | i, (prev, next) :: rest, acc =>
    let acc' :=
      if !isEqualBlock (some prev) (some next) then
        match modules.find? fun m =>
            containsSub m.url ("type=" ++ prev.type ++ "&index=" ++ toString i) with
        | some m => addUrl acc m.url
        | none => addOpt acc mainUrl
      else acc
    customLoop modules mainUrl (i + 1) rest acc'

/-- What one hot-update run returns and leaves behind: the affected url
list (none when the file was never requested), the updateType labels, and
the cache state after the run. -/
structure HotUpdateResult where
  affected : Option (List String)
  updateType : List String
  state : CacheState

/-- handleHotUpdate: reads the previous descriptor from the hmr cache
(absent means the file was never requested: return undefined), parses and
stores the new one (createDescriptor with hmr), then applies the decision
rules in source order: script change, template change, cssVars join
change, scoped-flag flip, per-index style loop, trailing style removal,
custom blocks, the needRerender postlude, and finally invalidates the
non-hmr cache entry exactly when updateType is non-empty.  isCSS models
vite's isCSSRequest; store models the resolved-script cache read; the
setResolvedScript transfer on a template-only change mutates only that
external store, which is not part of CacheState, so it has no effect on
the outputs modelled here. -/
def handleHotUpdate (isCSS : String → Bool)
    (hashFn : String → String) (normRel : String → String → String)
    (store : SFCDescriptor → Option (List String))
    (opts : ResolvedOpts) (st : CacheState)
    (file content : String) (parsed : ParseResult)
    (modules : List ModuleNode) : HotUpdateResult :=
  match mapGet st.hmrCache file with
  | none => ⟨none, [], st⟩
  | some prevDescriptor =>
    let r := createDescriptor hashFn normRel opts st file content parsed true
    let descriptor := r.1.descriptor
    let st₁ := r.2
    let mainModule := getMainModule modules
    let mainUrl := mainModule.map ModuleNode.url
    let templateModule := modules.find? fun m => containsSub m.url "type=template"
    let scriptChanged := hasScriptChanged store prevDescriptor descriptor
    let affected₁ : List String :=
      if scriptChanged then
        addOpt [] (((getScriptModule modules).orElse fun _ => mainModule).map ModuleNode.url)
      else []
    let needRerender := !isEqualBlock descriptor.template prevDescriptor.template
    let affected₂ :=
      if needRerender then addOpt affected₁ (templateModule.map ModuleNode.url)
      else affected₁
    let prevStyles := prevDescriptor.styles
    let nextStyles := descriptor.styles
    let affected₃ :=
      if String.join prevDescriptor.cssVars ≠ String.join descriptor.cssVars then
        addOpt affected₂ mainUrl
      else affected₂
    let affected₄ :=
      if (prevStyles.any fun s => s.scopedFlag) ≠ (nextStyles.any fun s => s.scopedFlag) then
        addOpt (addOpt affected₃ (templateModule.map ModuleNode.url)) mainUrl
      else affected₃
    let styleRes := styleLoop modules mainUrl prevStyles 0 nextStyles affected₄ false
    let didUpdateStyle := styleRes.2
    let affected₅ :=
      if prevStyles.length > nextStyles.length then addOpt styleRes.1 mainUrl
      else styleRes.1
    let prevCustoms := prevDescriptor.customBlocks
    let nextCustoms := descriptor.customBlocks
    let affected₆ :=
      if prevCustoms.length ≠ nextCustoms.length then addOpt affected₅ mainUrl
      else customLoop modules mainUrl 0 (prevCustoms.zip nextCustoms) affected₅
    let affected₇ :=
      if needRerender then
        match templateModule with
        | none => addOpt affected₆ mainUrl
        | some _ =>
          match mainModule with
          | some mm =>
            if mm.url ∈ affected₆ then affected₆
            else (mm.importers.filter isCSS).foldl addUrl affected₆
          | none => affected₆
      else affected₆
    let updateType :=
      (if needRerender then ["template"] else []) ++
      (if didUpdateStyle then ["style"] else [])
    let st₂ := if updateType ≠ [] then invalidateDescriptor st₁ file false else st₁
    ⟨some affected₇, updateType, st₂⟩

/-! ### Address codec (main.ts) -/

/-- Built-in query parameter names never re-emitted from user attrs. -/
def ignoreList : List String :=
  ["id", "index", "src", "type", "lang", "module", "scoped", "generic"]

/-- Uppercase hex digit of a value below 16. -/
def hexDigitUpper (n : Nat) : Char :=
  if n < 10 then Char.ofNat (48 + n) else Char.ofNat (55 + n)

/-- UTF-8 bytes of one code point, as numbers. -/
def utf8Bytes (c : Char) : List Nat :=
  let n := c.toNat
  if n < 0x80 then [n]
  else if n < 0x800 then [0xC0 + n / 0x40, 0x80 + n % 0x40]
  else if n < 0x10000 then
    [0xE0 + n / 0x1000, 0x80 + n / 0x40 % 0x40, 0x80 + n % 0x40]
  else
    [0xF0 + n / 0x40000, 0x80 + n / 0x1000 % 0x40, 0x80 + n / 0x40 % 0x40,
     0x80 + n % 0x40]

/-- The characters encodeURIComponent leaves unescaped: ASCII
alphanumerics and - _ . ! ~ * ( ) plus the apostrophe (written by code to
satisfy Lean's lexer). -/
def isUnescapedURIChar (c : Char) : Bool :=
  c.isAlphanum ||
    c ∈ ['-', '_', '.', '!', '~', '*', Char.ofNat 39, '(', ')']

/-- encodeURIComponent: keep unescaped characters, percent-encode the
UTF-8 bytes of every other character with uppercase hex. -/
def encodeURIComponent (s : String) : String :=
  String.mk (s.toList.flatMap fun c =>
    if isUnescapedURIChar c then [c]
    else (utf8Bytes c).flatMap fun b => ['%', hexDigitUpper (b / 16), hexDigitUpper (b % 16)])

/-- The fragment one kept attribute contributes after its ampersand: the
encoded name, then =encodedValue exactly when the value is truthy (a JS
true value is therefore emitted as =true). -/
def attrFragment (p : String × AttrVal) : String :=
  encodeURIComponent p.1 ++
    (if attrTruthy p.2 then "=" ++ encodeURIComponent (attrText p.2) else "")

/-- The attribute part of attrsToQuery: every attribute not on the ignore
list, in iteration order, contributes an ampersand and its fragment. -/
def attrsQueryCore (attrs : List (String × AttrVal)) : String :=
  String.join ((attrs.filter fun p => !ignoreList.contains p.1).map
    fun p => "&" ++ attrFragment p)

/-- attrsToQuery: the attribute fragments, then the language suffix when
a truthy fallback or a truthy lang attribute exists — the declared lang
unless the caller forces the fallback, the fallback when no lang key is
present. -/
def attrsToQuery (attrs : List (String × AttrVal)) (langFallback : Option String)
    (forceLangFallback : Bool) : String :=
  let query := attrsQueryCore attrs
  let langAttr := lookupA "lang" attrs
  if optTruthy langFallback ||
      (match langAttr with | some v => attrTruthy v | none => false) then
    query ++
      (match langAttr with
       | some v =>
         if forceLangFallback then "&lang." ++ optText langFallback
         else "&lang." ++ attrText v
       | none => "&lang." ++ optText langFallback)
  else query

/-- The src marker genStyleCode emits for a src-linked style block: the
owner id when scoped, the text true otherwise; empty without src. -/
def styleSrcQuery (d : SFCDescriptor) (style : SFCBlock) : String :=
  if optTruthy style.src then
    if style.scopedFlag then "&src=" ++ d.id else "&src=true"
  else ""

/-- The fixed query part genStyleCode builds for style block i (before
the attribute query is appended). -/
def styleQuery (d : SFCDescriptor) (i : Nat) (style : SFCBlock)
    (asCustomElement : Bool) : String :=
  "?vue&type=style&index=" ++ toString i ++ styleSrcQuery d style ++
    (if asCustomElement then "&inline" else "") ++
    (if style.scopedFlag then "&scoped=" ++ d.id else "")

/-- The full style request url genStyleCode emits: the raw src path (or
the owning filename), the fixed query, then the attribute query with the
css lang fallback. -/
def styleRequest (d : SFCDescriptor) (i : Nat) (style : SFCBlock)
    (asCustomElement : Bool) : String :=
  (if optTruthy style.src then optText style.src else d.filename) ++
    styleQuery d i style asCustomElement ++
    attrsToQuery style.attrs (some "css") false

/-- The replace of the query-stripping regex in linkSrcToDescriptor:
everything from the first question mark on is dropped. -/
def stripQuery (s : String) : String :=
  String.mk (s.toList.takeWhile fun c => c ≠ '?')

/-- linkSrcToDescriptor: resolve the src against the owning file (resolve
models the host's pluginContext.resolve, returning the resolved id when
it succeeds), strip any version query, and register the owner descriptor
under that path via setSrcDescriptor. -/
def linkSrcToDescriptor (resolve : String → String → Option String)
    (st : CacheState) (src : String) (descriptor : SFCDescriptor)
    (scopedF : Bool) : CacheState :=
  let srcFile := (resolve src descriptor.filename).getD src
  setSrcDescriptor st (stripQuery srcFile) descriptor scopedF

/-! ### Source-map stitcher (transformMain, main.ts) -/

/-- One decoded mapping entry as eachMapping presents it. -/
structure SourceMapping where
  source : Option String := none
  originalLine : Nat := 0
  originalColumn : Nat := 0
  generatedLine : Nat := 0
  generatedColumn : Nat := 0
deriving DecidableEq

/-- A source map reduced to what the stitcher reads and writes. -/
structure SourceMap where
  mappings : List SourceMapping := []
  sourcesContent : List (Option String) := []
deriving DecidableEq

/-- The match count of the newline regex over a text: each match consumes
exactly one newline character. -/
def countNewlines (s : String) : Nat :=
  s.toList.count '\n'

/-- The stitcher of transformMain: with both maps, start from the script
map, shift every template mapping that carries a source by the script
line count plus one (sourceless mappings are skipped by the eachMapping
callback) and take sourcesContent from the template map; with one map,
pass it through; with none, the returned map is the empty fallback. -/
def stitchSourceMaps (scriptMap templateMap : Option SourceMap)
    (scriptCode : String) : SourceMap :=
  match scriptMap, templateMap with
  | some sm, some tm =>
    let offset := countNewlines scriptCode + 1
    { mappings := sm.mappings ++ tm.mappings.filterMap fun m =>
        match m.source with
        | none => none
        | some s =>
          some { source := some s
                 originalLine := m.originalLine
                 originalColumn := m.originalColumn
                 generatedLine := m.generatedLine + offset
                 generatedColumn := m.generatedColumn }
      sourcesContent := tm.sourcesContent }
  | some sm, none => sm
  | none, some tm => tm
  | none, none => { mappings := [], sourcesContent := [] }

/-! ### Address decoding (utils/query.ts, not among the sources) -/

/-- Split a character list at every occurrence of a separator; the
separator is consumed and empty groups are kept. -/
def splitOnChar (c : Char) : List Char → List (List Char)
  | [] => [[]]
  | x :: xs =>
    if x = c then [] :: splitOnChar c xs
    else
      match splitOnChar c xs with
      | [] => [[x]]
      | g :: gs => (x :: g) :: gs

/-- The key of one query fragment: the characters before the first equals
sign. -/
def fragKey (frag : List Char) : List Char :=
  frag.takeWhile fun c => c ≠ '='

/-- The value of one query fragment: the characters after the first
equals sign (empty when there is none). -/
def fragValue (frag : List Char) : List Char :=
  (frag.dropWhile fun c => c ≠ '=').drop 1

/-- The value the query object ends up holding for a key: the last
fragment with that key wins, as in Object.fromEntries over
URLSearchParams. -/
def lastParamValue (key : List Char) (frags : List (List Char)) : Option (List Char) :=
  frags.foldl (fun acc f => if fragKey f = key then some (fragValue f) else acc) none

/-- Whether any fragment carries the key. -/
def hasParam (key : List Char) (frags : List (List Char)) : Bool :=
  frags.any fun f => fragKey f = key

/-- A decoded virtual address: path part and query object. -/
structure ParsedVueRequest where
  filename : String
  query : VueQuery
deriving DecidableEq

/-- Modelled from the spec: the address decoder (parseVueRequest in
utils/query.ts) is not among the sources; per the address grammar of
section 4.2 and the host interface of section 6 it splits the address at
the first question mark into path and query, reads the query as
ampersand-separated key=value fragments, takes the src value and notes
whether a scoped key is present. -/
def parseVueRequest (id : String) : ParsedVueRequest :=
  let l := id.toList
  let filename := l.takeWhile fun c => c ≠ '?'
  let raw := (l.dropWhile fun c => c ≠ '?').drop 1
  let frags := splitOnChar '&' raw
  { filename := String.mk filename
    query := { src := (lastParamValue "src".toList frags).map String.mk
               scopedFlag := hasParam "scoped".toList frags } }

/-! ### Reference definitions (written from the spec wording, for the
refinement-style claims) and concrete fixtures -/

/-- Attribute maps with pairwise distinct keys, as JS objects guarantee. -/
def NodupKeys (attrs : List (String × AttrVal)) : Prop :=
  (attrs.map Prod.fst).Nodup

/-- The reference block equality of the spec: both absent is equal, one
absent is unequal, a shared non-empty src is equal regardless of content,
otherwise identical contents and attribute maps equal as key-value sets,
order-independent. -/
def blockEqualsRef (a b : Option SFCBlock) : Prop :=
  match a, b with
  | none, none => True
  | none, some _ => False
  | some _, none => False
  | some a, some b =>
    (∃ s, a.src = some s ∧ b.src = some s ∧ s ≠ "") ∨
    (a.content = b.content ∧ ∀ p : String × AttrVal, p ∈ a.attrs ↔ p ∈ b.attrs)

/-- Whether the per-index style walk starting at index i finds a missing
or unequal previous block (the condition under which the style loop sets
didUpdateStyle). -/
def anyStyleChangedFrom (prevStyles : List SFCBlock) : Nat → List SFCBlock → Bool
  | _, [] => false
  | i, next :: rest =>
    (prevStyles[i]?.isNone || !isEqualBlock prevStyles[i]? (some next)) ||
      anyStyleChangedFrom prevStyles (i + 1) rest

/-- The ampersand-separated fragments of a query string after its leading
ampersand. -/
def queryFrags (s : String) : List (List Char) :=
  splitOnChar '&' (s.toList.drop 1)

/-- Fixture: a template block with given content. -/
def exTemplateBlock (c : String) : SFCBlock :=
  { type := "template", content := c }

/-- Fixture: a script block with given content. -/
def exScriptBlock (c : String) : SFCBlock :=
  { type := "script", content := c }

/-- Fixture: a descriptor with one script block only. -/
def exPrevScriptOnly : SFCDescriptor :=
  { filename := "/proj/App.vue", id := "00000000", script := some (exScriptBlock "a") }

/-- Fixture: the same descriptor after a script-only content edit. -/
def exNextScriptOnly : SFCDescriptor :=
  { exPrevScriptOnly with script := some (exScriptBlock "b") }

/-- Fixture: cache state where the script-only file is current in both
the main and the hmr namespace. -/
def exState1 : CacheState :=
  { cache := [("/proj/App.vue", exPrevScriptOnly)]
    hmrCache := [("/proj/App.vue", exPrevScriptOnly)]
    prevCache := [] }

/-- Fixture: the main module of the file. -/
def exMainModule : ModuleNode :=
  { url := "/proj/App.vue" }

/-- Fixture: a hot-update run whose only change is the script block
content. -/
def exRunScriptOnly : HotUpdateResult :=
  handleHotUpdate (fun _ => false) (fun s => s) (fun _ f => f) (fun _ => none)
    {} exState1 "/proj/App.vue" "edited" ⟨exNextScriptOnly, []⟩ [exMainModule]


/-- Fixture: a style block with two attributes. -/
def exAttrsBlockA : SFCBlock :=
  { type := "style", content := "c",
    attrs := [("x", AttrVal.str "1"), ("y", AttrVal.tru)] }

/-- Fixture: the same block with its attributes reordered. -/
def exAttrsBlockB : SFCBlock :=
  { exAttrsBlockA with attrs := [("y", AttrVal.tru), ("x", AttrVal.str "1")] }


/-- Fixture: a descriptor with one template block only. -/
def exTmplPrev : SFCDescriptor :=
  { filename := "/proj/App.vue", id := "00000000",
    template := some (exTemplateBlock "a") }

/-- Fixture: the same descriptor after a markup-only content edit. -/
def exTmplNext : SFCDescriptor :=
  { exTmplPrev with template := some (exTemplateBlock "b") }

/-- Fixture: cache state where the template-only file is current in both
namespaces. -/
def exState2 : CacheState :=
  { cache := [("/proj/App.vue", exTmplPrev)]
    hmrCache := [("/proj/App.vue", exTmplPrev)]
    prevCache := [] }

/-- Fixture: the template module of the file. -/
def exTemplateModule : ModuleNode :=
  { url := "/proj/App.vue?vue&type=template&lang.js" }


/-- The cache key linkSrcToDescriptor derives for a src reference: the
host-resolved id (or the raw src) with any version query stripped. -/
def resolvedSrcKey (resolve : String → String → Option String)
    (src : String) (d : SFCDescriptor) : String :=
  stripQuery ((resolve src d.filename).getD src)

/-- The served address of a src-linked style block: the emitted import
uses the raw src path plus the style query, and the host resolves the
path part to the same file the descriptor was linked under (spec section
6, the address grammar is bit-exact), so the id reaching the transform
hook is the resolved key followed by the emitted query. -/
def servedStyleAddress (resolve : String → String → Option String)
    (src : String) (d : SFCDescriptor) (i : Nat) (style : SFCBlock)
    (asCustomElement : Bool) : String :=
  resolvedSrcKey resolve src d ++ styleQuery d i style asCustomElement ++
    attrsToQuery style.attrs (some "css") false


/-- Fixture: a descriptor owning a src-linked scoped style block. -/
def exSrcOwner : SFCDescriptor :=
  { filename := "/proj/App.vue", id := "abc123ef" }

/-- Fixture: a scoped style block linked to an external file. -/
def exSrcStyle : SFCBlock :=
  { type := "style", attrs := [("foo", AttrVal.str "bar")],
    src := some "./foo.css", scopedFlag := true }

/-- Fixture: a resolver sending the relative src to its absolute path. -/
def exResolve : String → String → Option String :=
  fun _ _ => some "/proj/foo.css"

/-! ### Basic cache lemmas -/

/-- Looking up a key right after setting it yields the new entry. -/
theorem mapGet_mapSet (m : DescMap) (k : String) (v : SFCDescriptor) :
    mapGet (mapSet m k v) k = some v := by
  simp [mapSet, mapGet]

/-! ### C10 -/

/-- C10: createDescriptor always stores the freshly stamped descriptor
into the namespace selected by the hmr flag before returning, whatever
the parse error list is: a failed parse still replaces the cached entry
for that filename with the partial descriptor. -/
theorem createDescriptor_always_caches
    (hashFn : String → String) (normRel : String → String → String)
    (opts : ResolvedOpts) (st : CacheState) (filename source : String)
    (parsed : ParseResult) (hmr : Bool) :
    mapGet
      (if hmr then (createDescriptor hashFn normRel opts st filename source parsed hmr).2.hmrCache
       else (createDescriptor hashFn normRel opts st filename source parsed hmr).2.cache)
      filename
      = some (createDescriptor hashFn normRel opts st filename source parsed hmr).1.descriptor := by
  cases hmr <;> simp [createDescriptor, mapGet_mapSet]

/-! ### C6 -/

/-- C6: outside production the stamped id depends only on the normalized
root-relative path — two creates for the same filename with different
sources and unrelated cache states or hmr flags agree, and the id is the
hash of the path alone; in production the id is the hash of the path
followed by the full source text. -/
theorem createDescriptor_id_dev_stable
    (hashFn : String → String) (normRel : String → String → String)
    (opts opts' : ResolvedOpts) (st₁ st₂ st₃ : CacheState) (f s₁ s₂ s₃ : String)
    (p₁ p₂ p₃ : ParseResult) (h₁ h₂ h₃ : Bool)
    (hdev : opts.isProduction = false) (hprod : opts'.isProduction = true) :
    (createDescriptor hashFn normRel opts st₁ f s₁ p₁ h₁).1.descriptor.id =
      (createDescriptor hashFn normRel opts st₂ f s₂ p₂ h₂).1.descriptor.id
    ∧ (createDescriptor hashFn normRel opts st₁ f s₁ p₁ h₁).1.descriptor.id =
        hashFn (normRel opts.root f)
    ∧ (createDescriptor hashFn normRel opts' st₃ f s₃ p₃ h₃).1.descriptor.id =
        hashFn (normRel opts'.root f ++ s₃) := by
  simp [createDescriptor, hdev, hprod]

/-- Witness for C6 at concrete inputs. -/
theorem createDescriptor_id_dev_stable_witness :
    ({ isProduction := false : ResolvedOpts }.isProduction = false)
    ∧ ({ isProduction := true : ResolvedOpts }.isProduction = true)
    ∧ (createDescriptor (fun s => s) (fun _ f => f) { isProduction := false } {}
          "/proj/App.vue" "alpha" ⟨{}, []⟩ false).1.descriptor.id =
        (createDescriptor (fun s => s) (fun _ f => f) { isProduction := false } {}
          "/proj/App.vue" "beta" ⟨{}, []⟩ true).1.descriptor.id :=
  ⟨rfl, rfl,
    (createDescriptor_id_dev_stable (fun s => s) (fun _ f => f)
      { isProduction := false } { isProduction := true } {} {} {}
      "/proj/App.vue" "alpha" "beta" "gamma" ⟨{}, []⟩ ⟨{}, []⟩ ⟨{}, []⟩
      false true false rfl rfl).1⟩

/-! ### C3 -/

/-- C3 counterexample: a boolean-true attribute is not emitted as a bare
fragment — setup with value true yields setup=true, because JS truthiness
sends literal true through the value branch and encodeURIComponent
coerces it to the text true. -/
theorem attrsToQuery_bool_counterexample :
    attrsToQuery [("setup", AttrVal.tru)] (some "js") false = "&setup=true&lang.js"
    ∧ attrsToQuery [("setup", AttrVal.tru)] (some "js") false ≠ "&setup&lang.js" := by
  constructor
  · rfl
  · decide

/-- C3 amended: reserved keys are skipped and the remaining attributes
are emitted in iteration order, with a boolean-true value emitted as
name=true, a non-empty string value as name=value URL-encoded, and an
empty string value as a bare name fragment. -/
theorem attrsQueryCore_spec (attrs : List (String × AttrVal)) :
    attrsQueryCore attrs =
      String.join
        ((attrs.filter fun p =>
            !(["id", "index", "src", "type", "lang", "module", "scoped",
               "generic"] : List String).contains p.1).map
          fun p =>
            match p.2 with
            | .tru => "&" ++ encodeURIComponent p.1 ++ "=true"
            | .str v =>
              if v = "" then "&" ++ encodeURIComponent p.1
              else "&" ++ encodeURIComponent p.1 ++ "=" ++ encodeURIComponent v) := by
  unfold attrsQueryCore
  congr 1
  apply List.map_congr_left
  intro p _
  obtain ⟨n, v⟩ := p
  cases v with
  | tru =>
    show "&" ++ attrFragment (n, AttrVal.tru) = "&" ++ encodeURIComponent n ++ "=true"
    have htrue : encodeURIComponent "true" = "true" := by decide
    simp [attrFragment, attrTruthy, attrText, htrue, String.append_assoc]
  | str s =>
    by_cases hs : s = ""
    · subst hs
      show "&" ++ attrFragment (n, AttrVal.str "") = _
      simp [attrFragment, attrTruthy]
    · show "&" ++ attrFragment (n, AttrVal.str s) = _
      simp [attrFragment, attrTruthy, attrText, hs, String.append_assoc]

/-! ### C5 -/

/-- C5 counterexample: a template-map mapping that carries no source does
not appear in the merged map at all — merging an empty script map with a
one-mapping sourceless template map yields no mappings. -/
theorem stitchSourceMaps_counterexample :
    (stitchSourceMaps (some { mappings := [] })
        (some { mappings := [{ source := none, originalLine := 1, originalColumn := 1,
                               generatedLine := 1, generatedColumn := 1 }] })
        "").mappings = []
    ∧ ([{ source := none, originalLine := 1, originalColumn := 1,
          generatedLine := 1, generatedColumn := 1 }] : List SourceMapping).length = 1 := by
  constructor
  · rfl
  · rfl

/-- C5 amended: with both maps present, every template mapping that
carries a source appears in the merged map with its original position
kept, its generated line shifted by the newline count of the script
output plus one, and its generated column kept; sourcesContent comes from
the template map; a single map passes through unchanged; no maps yield
the empty map; and any merged mapping not inherited from the script map
has generated line at least five when the script output holds four
newlines. -/
theorem stitchSourceMaps_spec :
    (∀ (sm tm : SourceMap) (code : String) (m : SourceMapping) (src : String),
        m ∈ tm.mappings → m.source = some src →
        ({ source := some src, originalLine := m.originalLine,
           originalColumn := m.originalColumn,
           generatedLine := m.generatedLine + (countNewlines code + 1),
           generatedColumn := m.generatedColumn } : SourceMapping) ∈
          (stitchSourceMaps (some sm) (some tm) code).mappings)
    ∧ (∀ (sm tm : SourceMap) (code : String),
        (stitchSourceMaps (some sm) (some tm) code).sourcesContent = tm.sourcesContent)
    ∧ (∀ (sm : SourceMap) (code : String), stitchSourceMaps (some sm) none code = sm)
    ∧ (∀ (tm : SourceMap) (code : String), stitchSourceMaps none (some tm) code = tm)
    ∧ (∀ code : String,
        stitchSourceMaps none none code = { mappings := [], sourcesContent := [] })
    ∧ (∀ (sm tm : SourceMap) (code : String) (m' : SourceMapping),
        countNewlines code = 4 →
        m' ∈ (stitchSourceMaps (some sm) (some tm) code).mappings →
        m' ∉ sm.mappings → 5 ≤ m'.generatedLine) := by
  refine ⟨?_, ?_, ?_, ?_, ?_, ?_⟩
  · intro sm tm code m src hm hsrc
    simp only [stitchSourceMaps, List.mem_append]
    right
    rw [List.mem_filterMap]
    exact ⟨m, hm, by rw [hsrc]⟩
  · intro sm tm code
    rfl
  · intro sm code
    rfl
  · intro tm code
    rfl
  · intro code
    rfl
  · intro sm tm code m' hcode hmem hnot
    simp only [stitchSourceMaps, List.mem_append] at hmem
    rcases hmem with h | h
    · exact absurd h hnot
    · rw [List.mem_filterMap] at h
      obtain ⟨a, _, ha⟩ := h
      cases hsrc : a.source with
      | none => rw [hsrc] at ha; cases ha
      | some s =>
        rw [hsrc] at ha
        cases ha
        simp [hcode]

/-- Witness for C5 at concrete inputs: one sourced mapping of the
template map lands shifted in the merged map. -/
theorem stitchSourceMaps_spec_witness :
    ({ source := some "App.vue", originalLine := 2, originalColumn := 3,
       generatedLine := 7 + (countNewlines "a\nb" + 1), generatedColumn := 4 } : SourceMapping) ∈
      (stitchSourceMaps (some { mappings := [] })
        (some { mappings := [{ source := some "App.vue", originalLine := 2,
                               originalColumn := 3, generatedLine := 7,
                               generatedColumn := 4 }] })
        "a\nb").mappings :=
  stitchSourceMaps_spec.1 { mappings := [] }
    { mappings := [{ source := some "App.vue", originalLine := 2, originalColumn := 3,
                     generatedLine := 7, generatedColumn := 4 }] }
    "a\nb"
    { source := some "App.vue", originalLine := 2, originalColumn := 3,
      generatedLine := 7, generatedColumn := 4 }
    "App.vue" (by decide) (by decide)

/-! ### C2 -/

/-- C2 counterexample: on a cache miss with createIfNotFound and hmr
false, a successful read followed by a parse with errors makes
getDescriptor throw the first parse error instead of returning it. -/
theorem getDescriptor_parse_throw_counterexample :
    (getDescriptor (fun s => s) (fun _ f => f) (fun _ => Except.ok "sourcetext")
        (fun _ => ⟨{}, ["bad"]⟩) {} {} "/proj/App.vue" true false).1
      = Except.error (GetDescriptorError.parseError "bad") := by
  rfl

/-- C2 amended: on a cache miss of the get-with-create path, a file-read
failure propagates as an exception; a parse with errors also propagates —
the first error is thrown — whenever hmr is false; only with hmr true or
a clean parse is the descriptor returned, errors suppressed. -/
theorem getDescriptor_error_semantics
    (hashFn : String → String) (normRel : String → String → String)
    (readFile : String → Except String String) (parse : String → ParseResult)
    (opts : ResolvedOpts) (st : CacheState) (filename : String) (hmr : Bool)
    (hmiss : mapGet (if hmr then st.hmrCache else st.cache) filename = none) :
    (∀ e, readFile filename = .error e →
        (getDescriptor hashFn normRel readFile parse opts st filename true hmr).1
          = .error (.ioError e))
    ∧ (∀ source d e rest, readFile filename = .ok source →
        parse source = ⟨d, e :: rest⟩ → hmr = false →
        (getDescriptor hashFn normRel readFile parse opts st filename true hmr).1
          = .error (.parseError e))
    ∧ (∀ source, readFile filename = .ok source →
        ((parse source).errors = [] ∨ hmr = true) →
        (getDescriptor hashFn normRel readFile parse opts st filename true hmr).1
          = .ok (some (createDescriptor hashFn normRel opts st filename source
                        (parse source) hmr).1.descriptor)) := by
  refine ⟨?_, ?_, ?_⟩
  · intro e he
    cases hmr <;> simp at hmiss <;> simp [getDescriptor, hmiss, he]
  · intro source d e rest hr hp hh
    subst hh
    simp at hmiss
    simp [getDescriptor, hmiss, hr, hp, createDescriptor]
  · intro source hr herr
    cases hp : parse source with
    | mk d errs =>
      cases hmr with
      | false =>
        have herrs : errs = [] := by
          rcases herr with h | h
          · simpa [hp] using h
          · cases h
        subst herrs
        simp at hmiss
        simp [getDescriptor, hmiss, hr, hp, createDescriptor]
      | true =>
        simp at hmiss
        cases errs with
        | nil => simp [getDescriptor, hmiss, hr, hp, createDescriptor]
        | cons e rest => simp [getDescriptor, hmiss, hr, hp, createDescriptor]

/-- Witness for C2 at concrete inputs: an I/O failure propagates. -/
theorem getDescriptor_error_semantics_witness :
    mapGet (if false then ({} : CacheState).hmrCache else ({} : CacheState).cache)
        "/proj/App.vue" = none
    ∧ (getDescriptor (fun s => s) (fun _ f => f) (fun _ => Except.error "ENOENT")
        (fun _ => ⟨{}, []⟩) {} {} "/proj/App.vue" true false).1
        = .error (.ioError "ENOENT") :=
  ⟨rfl,
    (getDescriptor_error_semantics (fun s => s) (fun _ f => f)
        (fun _ => Except.error "ENOENT") (fun _ => ⟨{}, []⟩) {} {} "/proj/App.vue"
        false rfl).1 "ENOENT" rfl⟩

/-! ### C7 -/

/-- C7: with both script blocks unchanged per isEqualBlock, the script
change detector reports true exactly when a previously resolved import
record exists for the previous descriptor and the new template is absent
or its forced-reload predicate fires on that record; in particular it
reports false when no such record exists. -/
theorem hasScriptChanged_unchanged_blocks
    (store : SFCDescriptor → Option (List String)) (prev next : SFCDescriptor)
    (h1 : isEqualBlock prev.script next.script = true)
    (h2 : isEqualBlock prev.scriptSetup next.scriptSetup = true) :
    hasScriptChanged store prev next = true ↔
      ∃ prevImports, store prev = some prevImports ∧
        (next.template = none ∨ next.shouldForceReload prevImports = true) := by
  unfold hasScriptChanged
  rw [h1, h2]
  cases hs : store prev with
  | none => simp
  | some imports =>
    simp only [Bool.not_true, Bool.false_eq_true, if_false, Option.some.injEq]
    constructor
    · intro h
      refine ⟨imports, rfl, ?_⟩
      rcases Bool.or_eq_true_iff.mp h with h | h
      · exact Or.inl (Option.isNone_iff_eq_none.mp h)
      · exact Or.inr h
    · rintro ⟨i, rfl, h⟩
      apply Bool.or_eq_true_iff.mpr
      rcases h with h | h
      · exact Or.inl (by simp [h])
      · exact Or.inr h

/-- Witness for C7 at concrete inputs: unchanged blocks, a stored import
record, and an absent template report a script change. -/
theorem hasScriptChanged_unchanged_blocks_witness :
    isEqualBlock ({} : SFCDescriptor).script ({} : SFCDescriptor).script = true
    ∧ (hasScriptChanged (fun _ => some ["vue"]) {} {} = true ↔
        ∃ prevImports, (fun _ : SFCDescriptor => some ["vue"]) {} = some prevImports ∧
          (({} : SFCDescriptor).template = none ∨
            ({} : SFCDescriptor).shouldForceReload prevImports = true)) :=
  ⟨rfl, hasScriptChanged_unchanged_blocks (fun _ => some ["vue"]) {} {} rfl rfl⟩

/-! ### C4 -/

/-- Key-value lookup agrees with membership on maps with distinct keys. -/
theorem lookupA_eq_some_iff (attrs : List (String × AttrVal)) (h : NodupKeys attrs)
    (k : String) (v : AttrVal) : lookupA k attrs = some v ↔ (k, v) ∈ attrs := by
  induction attrs with
  | nil => simp [lookupA]
  | cons p rest ih =>
    obtain ⟨n, w⟩ := p
    have h' : n ∉ rest.map Prod.fst ∧ NodupKeys rest := by
      simpa [NodupKeys] using h
    by_cases hn : n = k
    · subst hn
      constructor
      · intro hw
        have hv : w = v := by simpa [lookupA] using hw
        subst hv
        exact List.mem_cons_self _ _
      · intro hmem
        rcases List.mem_cons.mp hmem with heq | hmem
        · injection heq with h1 h2
          simp [lookupA, h2]
        · exact absurd (List.mem_map_of_mem Prod.fst hmem) h'.1
    · constructor
      · intro hw
        have hr : lookupA k rest = some v := by simpa [lookupA, hn] using hw
        exact List.mem_cons_of_mem _ ((ih h'.2).mp hr)
      · intro hmem
        rcases List.mem_cons.mp hmem with heq | hmem
        · injection heq with h1 h2
          exact absurd h1.symm hn
        · simpa [lookupA, hn] using (ih h'.2).mpr hmem

/-- A key is among the map's keys exactly when its lookup succeeds. -/
theorem mem_keys_iff_lookupA (attrs : List (String × AttrVal)) (k : String) :
    k ∈ attrs.map Prod.fst ↔ (lookupA k attrs).isSome := by
  induction attrs with
  | nil => simp [lookupA]
  | cons p rest ih =>
    obtain ⟨n, w⟩ := p
    by_cases hn : n = k
    · subst hn
      simp [lookupA]
    · simp [lookupA, hn, ih, Ne.symm hn]

/-- The code's attribute check — equal key counts and every key of the
first map looking up equally in both — is the order-independent key-value
set equality of the spec, for maps with distinct keys. -/
theorem attrsCheck_iff (A B : List (String × AttrVal))
    (hA : NodupKeys A) (hB : NodupKeys B) :
    ((A.map Prod.fst).length = (B.map Prod.fst).length ∧
      ∀ k ∈ A.map Prod.fst, lookupA k A = lookupA k B) ↔
    ∀ p : String × AttrVal, p ∈ A ↔ p ∈ B := by
  constructor
  · rintro ⟨hlen, hall⟩ ⟨k, v⟩
    constructor
    · intro hmem
      have hk : k ∈ A.map Prod.fst := List.mem_map_of_mem Prod.fst hmem
      have h1 : lookupA k A = some v := (lookupA_eq_some_iff A hA k v).mpr hmem
      have h2 : lookupA k B = some v := by rw [← hall k hk]; exact h1
      exact (lookupA_eq_some_iff B hB k v).mp h2
    · intro hmem
      have hsub : A.map Prod.fst ⊆ B.map Prod.fst := by
        intro k' hk'
        have h1 : (lookupA k' A).isSome := (mem_keys_iff_lookupA A k').mp hk'
        rw [hall k' hk'] at h1
        exact (mem_keys_iff_lookupA B k').mpr h1
      have hperm : (A.map Prod.fst).Perm (B.map Prod.fst) :=
        (hA.subperm hsub).perm_of_length_le (le_of_eq hlen.symm)
      have hkA : k ∈ A.map Prod.fst :=
        hperm.mem_iff.mpr (List.mem_map_of_mem Prod.fst hmem)
      have h1 : lookupA k B = some v := (lookupA_eq_some_iff B hB k v).mpr hmem
      have h2 : lookupA k A = some v := by rw [hall k hkA]; exact h1
      exact (lookupA_eq_some_iff A hA k v).mp h2
  · intro hiff
    have hkeys : ∀ k, k ∈ A.map Prod.fst ↔ k ∈ B.map Prod.fst := by
      intro k
      constructor <;> intro hk
      · obtain ⟨p, hp, hpk⟩ := List.mem_map.mp hk
        exact hpk ▸ List.mem_map_of_mem Prod.fst ((hiff p).mp hp)
      · obtain ⟨p, hp, hpk⟩ := List.mem_map.mp hk
        exact hpk ▸ List.mem_map_of_mem Prod.fst ((hiff p).mpr hp)
    refine ⟨?_, ?_⟩
    · have h1 := (hA.subperm fun k hk => (hkeys k).mp hk).length_le
      have h2 := (hB.subperm fun k hk => (hkeys k).mpr hk).length_le
      exact Nat.le_antisymm h1 h2
    · intro k hk
      obtain ⟨v, hv⟩ := Option.isSome_iff_exists.mp ((mem_keys_iff_lookupA A k).mp hk)
      have hvB : (k, v) ∈ B := (hiff (k, v)).mp ((lookupA_eq_some_iff A hA k v).mp hv)
      rw [hv, ((lookupA_eq_some_iff B hB k v).mpr hvB)]

/-- With the src shortcut off and contents equal, isEqualBlock reduces to
the key-count and per-key lookup check. -/
theorem isEqualBlock_attrs_bool (x y : SFCBlock)
    (hcond : (optTruthy x.src && optTruthy y.src && x.src == y.src) = false)
    (hc : x.content = y.content) :
    isEqualBlock (some x) (some y) = true ↔
      ((x.attrs.map Prod.fst).length = (y.attrs.map Prod.fst).length ∧
        ∀ k ∈ x.attrs.map Prod.fst, lookupA k x.attrs = lookupA k y.attrs) := by
  by_cases hl : (x.attrs.map Prod.fst).length = (y.attrs.map Prod.fst).length
  · simp [isEqualBlock, hcond, hc, hl, List.all_eq_true]
  · simp [isEqualBlock, hcond, hc, hl]

/-- C4: isEqualBlock coincides with the reference block equality written
from the spec — both absent equal, one absent unequal, shared non-empty
src equal regardless of content, otherwise identical contents plus
order-independent key-value set equality of the attribute maps — for
attribute maps with distinct keys; consequently reordering a block's
attributes without changing values never reports a change. -/
theorem isEqualBlock_iff_ref :
    (∀ (a b : Option SFCBlock),
        (∀ blk, a = some blk → NodupKeys blk.attrs) →
        (∀ blk, b = some blk → NodupKeys blk.attrs) →
        (isEqualBlock a b = true ↔ blockEqualsRef a b))
    ∧ (∀ (blk : SFCBlock) (attrs2 : List (String × AttrVal)),
        NodupKeys blk.attrs → blk.attrs.Perm attrs2 →
        isEqualBlock (some blk) (some { blk with attrs := attrs2 }) = true) := by
  have main : ∀ (a b : Option SFCBlock),
      (∀ blk, a = some blk → NodupKeys blk.attrs) →
      (∀ blk, b = some blk → NodupKeys blk.attrs) →
      (isEqualBlock a b = true ↔ blockEqualsRef a b) := by
    intro a b ha hb
    cases a with
    | none =>
      cases b with
      | none => simp [isEqualBlock, blockEqualsRef]
      | some y => simp [isEqualBlock, blockEqualsRef]
    | some x =>
      cases b with
      | none => simp [isEqualBlock, blockEqualsRef]
      | some y =>
        have hx := ha x rfl
        have hy := hb y rfl
        by_cases hsrc : ∃ s, x.src = some s ∧ y.src = some s ∧ s ≠ ""
        · obtain ⟨s, hxs, hys, hs⟩ := hsrc
          have hcond : (optTruthy x.src && optTruthy y.src && x.src == y.src) = true := by
            simp [optTruthy, hxs, hys, hs]
          exact iff_of_true (by simp [isEqualBlock, hcond])
            (Or.inl ⟨s, hxs, hys, hs⟩)
        · have hcond : (optTruthy x.src && optTruthy y.src && x.src == y.src) = false := by
            cases hxs : x.src with
            | none => simp [optTruthy]
            | some s =>
              cases hys : y.src with
              | none => simp [optTruthy]
              | some t =>
                by_cases hst : s = t
                · subst hst
                  by_cases hse : s = ""
                  · subst hse; simp [optTruthy]
                  · exact absurd ⟨s, hxs, hys, hse⟩ hsrc
                · simp [optTruthy, hst]
          have hrefl : blockEqualsRef (some x) (some y) ↔
              (x.content = y.content ∧ ∀ p : String × AttrVal, p ∈ x.attrs ↔ p ∈ y.attrs) := by
            simp only [blockEqualsRef]
            constructor
            · rintro (h | h)
              · exact absurd h hsrc
              · exact h
            · exact Or.inr
          by_cases hc : x.content = y.content
          · rw [hrefl, isEqualBlock_attrs_bool x y hcond hc,
              attrsCheck_iff x.attrs y.attrs hx hy]
            simp [hc]
          · refine iff_of_false ?_ ?_
            · simp [isEqualBlock, hcond, hc]
            · intro h
              exact hc (hrefl.mp h).1
  refine ⟨main, ?_⟩
  intro blk attrs2 hnd hperm
  have hnd2 : NodupKeys attrs2 := (hperm.map Prod.fst).nodup_iff.mp hnd
  apply (main (some blk) (some { blk with attrs := attrs2 })
      (by rintro b ⟨⟩; exact hnd) (by rintro b ⟨⟩; exact hnd2)).mpr
  exact Or.inr ⟨rfl, fun p => hperm.mem_iff⟩

/-- Witness for C4 at concrete reordered attribute maps. -/
theorem isEqualBlock_iff_ref_witness :
    (∀ blk, some exAttrsBlockA = some blk → NodupKeys blk.attrs)
    ∧ (∀ blk, some exAttrsBlockB = some blk → NodupKeys blk.attrs)
    ∧ (isEqualBlock (some exAttrsBlockA) (some exAttrsBlockB) = true ↔
        blockEqualsRef (some exAttrsBlockA) (some exAttrsBlockB)) :=
  ⟨fun blk h => by cases h; unfold NodupKeys; decide, fun blk h => by cases h; unfold NodupKeys; decide,
    isEqualBlock_iff_ref.1 (some exAttrsBlockA) (some exAttrsBlockB)
      (fun blk h => by cases h; unfold NodupKeys; decide) (fun blk h => by cases h; unfold NodupKeys; decide)⟩

/-! ### C1 -/

/-- C1 counterexample: a run whose only change is the script block adds
the main module to the affected set yet records no updateType, so the
cache entry is not invalidated — current stays in cache and prevCache
stays empty. -/
theorem handleHotUpdate_script_only_counterexample :
    exRunScriptOnly.affected = some ["/proj/App.vue"]
    ∧ exRunScriptOnly.updateType = []
    ∧ exRunScriptOnly.state.cache = exState1.cache
    ∧ exRunScriptOnly.state.prevCache = [] :=
  ⟨rfl, rfl, rfl, rfl⟩

/-- The style loop's didUpdateStyle flag is exactly the walk for a
missing or unequal style block. -/
theorem styleLoop_snd (modules : List ModuleNode) (mainUrl : Option String)
    (prevStyles : List SFCBlock) :
    ∀ (l : List SFCBlock) (i : Nat) (acc : List String) (flag : Bool),
      (styleLoop modules mainUrl prevStyles i l acc flag).2
        = (flag || anyStyleChangedFrom prevStyles i l) := by
  intro l
  induction l with
  | nil => intro i acc flag; simp [styleLoop, anyStyleChangedFrom]
  | cons next rest ih =>
    intro i acc flag
    cases h : (prevStyles[i]?.isNone || !isEqualBlock prevStyles[i]? (some next)) with
    | true => simp [styleLoop, anyStyleChangedFrom, h, ih]
    | false => simp [styleLoop, anyStyleChangedFrom, h, ih]

/-- C1 amended: the classifier invalidates the file's cache entry
(current removed and moved to previous) exactly when it recorded a
template or style update kind — the markup block changed per
isEqualBlock, or some style index is new or changed; a run whose
additions come only from the script, cssVars, scoped-flag or custom-block
rules leaves the non-hmr cache untouched. -/
theorem handleHotUpdate_invalidation
    (isCSS : String → Bool) (hashFn : String → String)
    (normRel : String → String → String)
    (store : SFCDescriptor → Option (List String)) (opts : ResolvedOpts)
    (st : CacheState) (file content : String) (parsed : ParseResult)
    (modules : List ModuleNode) (prev : SFCDescriptor)
    (hprev : mapGet st.hmrCache file = some prev) :
    ((handleHotUpdate isCSS hashFn normRel store opts st file content parsed
        modules).updateType ≠ [] ↔
      (!isEqualBlock parsed.descriptor.template prev.template ||
        anyStyleChangedFrom prev.styles 0 parsed.descriptor.styles) = true)
    ∧ (handleHotUpdate isCSS hashFn normRel store opts st file content parsed
        modules).state.cache =
        (if (!isEqualBlock parsed.descriptor.template prev.template ||
              anyStyleChangedFrom prev.styles 0 parsed.descriptor.styles) then
          mapDelete st.cache file
        else st.cache)
    ∧ (handleHotUpdate isCSS hashFn normRel store opts st file content parsed
        modules).state.prevCache =
        (if (!isEqualBlock parsed.descriptor.template prev.template ||
              anyStyleChangedFrom prev.styles 0 parsed.descriptor.styles) then
          (match mapGet st.cache file with
           | some p => mapSet st.prevCache file p
           | none => st.prevCache)
        else st.prevCache) := by
  unfold handleHotUpdate
  rw [hprev]
  simp only [createDescriptor]
  rw [styleLoop_snd]
  cases ht : isEqualBlock parsed.descriptor.template prev.template <;>
    cases hs : anyStyleChangedFrom prev.styles 0 parsed.descriptor.styles <;>
      simp [invalidateDescriptor, ht, hs] <;>
        cases hm : mapGet st.cache file <;> simp [hm]

/-- Witness for C1 amended at the script-only fixture run. -/
theorem handleHotUpdate_invalidation_witness :
    mapGet exState1.hmrCache "/proj/App.vue" = some exPrevScriptOnly
    ∧ ((handleHotUpdate (fun _ => false) (fun s => s) (fun _ f => f) (fun _ => none)
          {} exState1 "/proj/App.vue" "edited" ⟨exNextScriptOnly, []⟩
          [exMainModule]).updateType ≠ [] ↔
        (!isEqualBlock exNextScriptOnly.template exPrevScriptOnly.template ||
          anyStyleChangedFrom exPrevScriptOnly.styles 0 exNextScriptOnly.styles) = true) :=
  ⟨rfl, (handleHotUpdate_invalidation (fun _ => false) (fun s => s) (fun _ f => f)
      (fun _ => none) {} exState1 "/proj/App.vue" "edited" ⟨exNextScriptOnly, []⟩
      [exMainModule] exPrevScriptOnly rfl).1⟩

/-! ### C9 -/

/-- C9: for a file whose previous and new descriptors hold only a markup
block (no script, style or custom blocks), an edit changing only the
markup text, no previously resolved import record, and a module graph of
the main module and a distinct template module with no CSS importers on
main — the classifier returns exactly the markup module, records the
template kind, and the main module is not in the affected set. -/
theorem handleHotUpdate_markup_only
    (isCSS : String → Bool) (hashFn : String → String)
    (normRel : String → String → String)
    (store : SFCDescriptor → Option (List String)) (opts : ResolvedOpts)
    (st : CacheState) (file content : String) (parsed : ParseResult)
    (prev : SFCDescriptor) (mainM tmplM : ModuleNode)
    (hprev : mapGet st.hmrCache file = some prev)
    (hscript : prev.script = none) (hsetup : prev.scriptSetup = none)
    (hscript' : parsed.descriptor.script = none)
    (hsetup' : parsed.descriptor.scriptSetup = none)
    (hstore : store prev = none)
    (hstyles : prev.styles = []) (hstyles' : parsed.descriptor.styles = [])
    (hcustoms : prev.customBlocks = [])
    (hcustoms' : parsed.descriptor.customBlocks = [])
    (hcss : String.join prev.cssVars = String.join parsed.descriptor.cssVars)
    (htmpl : isEqualBlock parsed.descriptor.template prev.template = false)
    (hmainA : containsSub mainM.url "type=" = false)
    (hmainT : containsSub mainM.url "type=template" = false)
    (htmB : containsSub tmplM.url "type=template" = true)
    (htmC : containsSub tmplM.url "type=" = true)
    (htmD : containsSub tmplM.url "type=script" = false)
    (hne : mainM.url ≠ tmplM.url)
    (himp : mainM.importers.filter isCSS = []) :
    (handleHotUpdate isCSS hashFn normRel store opts st file content parsed
        [mainM, tmplM]).affected = some [tmplM.url]
    ∧ (handleHotUpdate isCSS hashFn normRel store opts st file content parsed
        [mainM, tmplM]).updateType = ["template"]
    ∧ mainM.url ∉ [tmplM.url] := by
  have hnn : isEqualBlock none none = true := rfl
  unfold handleHotUpdate
  rw [hprev]
  simp only [createDescriptor]
  simp [getMainModule, getScriptModule, hasScriptChanged, hscript, hsetup,
    hscript', hsetup', hstore, hstyles, hstyles', hcustoms, hcustoms', hcss,
    htmpl, hmainA, hmainT, htmB, htmC, htmD, hne, himp, hnn,
    styleLoop, customLoop, addOpt, addUrl]

/-- Witness for C9 at the template-only fixtures. -/
theorem handleHotUpdate_markup_only_witness :
    isEqualBlock exTmplNext.template exTmplPrev.template = false
    ∧ mapGet exState2.hmrCache "/proj/App.vue" = some exTmplPrev
    ∧ (handleHotUpdate (fun _ => false) (fun s => s) (fun _ f => f) (fun _ => none)
        {} exState2 "/proj/App.vue" "edited" ⟨exTmplNext, []⟩
        [exMainModule, exTemplateModule]).affected = some [exTemplateModule.url]
    ∧ (handleHotUpdate (fun _ => false) (fun s => s) (fun _ f => f) (fun _ => none)
        {} exState2 "/proj/App.vue" "edited" ⟨exTmplNext, []⟩
        [exMainModule, exTemplateModule]).updateType = ["template"]
    ∧ exMainModule.url ∉ [exTemplateModule.url] :=
  have h := handleHotUpdate_markup_only (fun _ => false) (fun s => s) (fun _ f => f)
    (fun _ => none) {} exState2 "/proj/App.vue" "edited" ⟨exTmplNext, []⟩
    exTmplPrev exMainModule exTemplateModule
    rfl rfl rfl rfl rfl rfl rfl rfl rfl rfl rfl
    (by decide) (by decide) (by decide) (by decide) (by decide) (by decide)
    (by decide) rfl
  ⟨by decide, rfl, h.1, h.2.1, h.2.2⟩

/-! ### C8: splitting the address grammar -/

/-- Character lists of concatenated strings concatenate. -/
theorem str_toList_append (a b : String) : (a ++ b).toList = a.toList ++ b.toList := rfl

/-- takeWhile over a satisfying prefix stops at the first failing
element. -/
theorem takeWhile_append_cons {α} (p : α → Bool) (a : List α) (x : α) (b : List α)
    (ha : ∀ y ∈ a, p y = true) (hx : p x = false) :
    (a ++ x :: b).takeWhile p = a := by
  induction a with
  | nil => simp [List.takeWhile, hx]
  | cons y ys ih =>
    have hy : p y = true := ha y (List.mem_cons_self y ys)
    simp only [List.cons_append, List.takeWhile_cons, hy, if_true]
    rw [ih (fun z hz => ha z (List.mem_cons_of_mem y hz))]

/-- dropWhile over a satisfying prefix lands on the first failing
element. -/
theorem dropWhile_append_cons {α} (p : α → Bool) (a : List α) (x : α) (b : List α)
    (ha : ∀ y ∈ a, p y = true) (hx : p x = false) :
    (a ++ x :: b).dropWhile p = x :: b := by
  induction a with
  | nil => simp [List.dropWhile, hx]
  | cons y ys ih =>
    have hy : p y = true := ha y (List.mem_cons_self y ys)
    simp only [List.cons_append, List.dropWhile_cons, hy, if_true]
    exact ih (fun z hz => ha z (List.mem_cons_of_mem y hz))

/-- Splitting at a separator peels off a separator-free prefix. -/
theorem splitOnChar_append_cons (c : Char) (a b : List Char) (h : c ∉ a) :
    splitOnChar c (a ++ c :: b) = a :: splitOnChar c b := by
  induction a with
  | nil => simp [splitOnChar]
  | cons x xs ih =>
    have hx : ¬ x = c := fun hxc => h (hxc ▸ List.mem_cons_self x xs)
    have ih' := ih (fun hm => h (List.mem_cons_of_mem x hm))
    simp only [List.cons_append, splitOnChar, if_neg hx, List.append_eq, ih']

/-- Splitting a separator-joined fragment list recovers the fragments. -/
theorem splitOnChar_build (c : Char) (t : List Char) :
    ∀ (parts : List (List Char)), (∀ p ∈ parts, c ∉ p) →
      splitOnChar c (parts.foldr (fun p acc => p ++ c :: acc) t)
        = parts ++ splitOnChar c t := by
  intro parts h
  induction parts with
  | nil => rfl
  | cons p ps ih =>
    simp only [List.foldr_cons]
    rw [splitOnChar_append_cons c p _ (h p (List.mem_cons_self p ps))]
    rw [ih (fun q hq => h q (List.mem_cons_of_mem p hq))]
    rfl

/-- The key of a fragment built as key, equals sign, value. -/
theorem fragKey_of_eq_split (a v : List Char) (ha : ('=' : Char) ∉ a) :
    fragKey (a ++ '=' :: v) = a :=
  takeWhile_append_cons _ a '=' v
    (fun y hy => by
      simp only [decide_eq_true_iff]
      exact fun hyc => ha (hyc ▸ hy))
    (by decide)

/-- The value of a fragment built as key, equals sign, value. -/
theorem fragValue_of_eq_split (a v : List Char) (ha : ('=' : Char) ∉ a) :
    fragValue (a ++ '=' :: v) = v := by
  unfold fragValue
  rw [dropWhile_append_cons _ a '=' v
    (fun y hy => by
      simp only [decide_eq_true_iff]
      exact fun hyc => ha (hyc ▸ hy))
    (by decide)]
  rfl

/-- The last-wins parameter fold distributes over fragment append. -/
theorem lastParamValue_append (key : List Char) (f₁ f₂ : List (List Char)) :
    lastParamValue key (f₁ ++ f₂)
      = (f₂.foldl (fun acc f => if fragKey f = key then some (fragValue f) else acc)
          (lastParamValue key f₁)) := by
  unfold lastParamValue
  rw [List.foldl_append]

/-- Fragments without the key leave the parameter fold unchanged. -/
theorem foldl_param_no_key (key : List Char) (frags : List (List Char))
    (h : ∀ f ∈ frags, fragKey f ≠ key) (acc : Option (List Char)) :
    frags.foldl (fun acc f => if fragKey f = key then some (fragValue f) else acc) acc
      = acc := by
  induction frags generalizing acc with
  | nil => rfl
  | cons f fs ih =>
    simp only [List.foldl_cons, if_neg (h f (List.mem_cons_self f fs))]
    exact ih (fun g hg => h g (List.mem_cons_of_mem f hg)) acc

/-- Key presence distributes over fragment append. -/
theorem hasParam_append (key : List Char) (f₁ f₂ : List (List Char)) :
    hasParam key (f₁ ++ f₂) = (hasParam key f₁ || hasParam key f₂) := by
  unfold hasParam
  rw [List.any_append]

/-- A stripped path holds no question mark. -/
theorem stripQuery_no_qmark (s : String) : ('?' : Char) ∉ (stripQuery s).toList := by
  intro h
  have := List.mem_takeWhile_imp h
  simp at this

/-- A fold of string appends only extends the accumulator. -/
theorem toList_foldl_append (l : List String) (a : String) :
    ∃ t, (l.foldl (fun x y => x ++ y) a).toList = a.toList ++ t := by
  induction l generalizing a with
  | nil => exact ⟨[], by simp⟩
  | cons b bs ih =>
    obtain ⟨t, ht⟩ := ih (a ++ b)
    exact ⟨b.toList ++ t, by simp only [List.foldl_cons, ht, str_toList_append,
      List.append_assoc]⟩

/-- Appending to an empty or ampersand-headed string keeps an ampersand
head when the suffix has one. -/
theorem amp_head_append (q X : String) (hq : q = "" ∨ ∃ tq, q.toList = '&' :: tq)
    (hX : ∃ tX, X.toList = '&' :: tX) : ∃ t, (q ++ X).toList = '&' :: t := by
  obtain ⟨tX, htX⟩ := hX
  rcases hq with rfl | ⟨tq, htq⟩
  · exact ⟨tX, htX⟩
  · exact ⟨tq ++ X.toList, by rw [str_toList_append, htq]; rfl⟩

/-- The attribute query is empty or starts with an ampersand. -/
theorem attrsQueryCore_head (attrs : List (String × AttrVal)) :
    attrsQueryCore attrs = "" ∨ ∃ tq, (attrsQueryCore attrs).toList = '&' :: tq := by
  unfold attrsQueryCore
  cases hf : attrs.filter (fun p => !ignoreList.contains p.1) with
  | nil => exact Or.inl rfl
  | cons p ps =>
    right
    simp only [List.map_cons, String.join, List.foldl_cons]
    obtain ⟨t, ht⟩ := toList_foldl_append (ps.map fun p => "&" ++ attrFragment p)
      ("" ++ ("&" ++ attrFragment p))
    exact ⟨(attrFragment p).toList ++ t, by rw [ht]; rfl⟩

/-- The language suffix starts with an ampersand. -/
theorem lang_suffix_head (s : String) :
    ∃ tX, ("&lang." ++ s).toList = '&' :: tX :=
  ⟨"lang.".toList ++ s.toList, by rw [str_toList_append]; rfl⟩

/-- With the css fallback the attribute query always starts with an
ampersand. -/
theorem attrsToQuery_css_head (attrs : List (String × AttrVal)) (force : Bool) :
    ∃ t, (attrsToQuery attrs (some "css") force).toList = '&' :: t := by
  unfold attrsToQuery
  have hcss : optTruthy (some "css") = true := rfl
  cases hl : lookupA "lang" attrs with
  | none =>
    simp only [hl, hcss, Bool.true_or, if_true]
    exact amp_head_append _ _ (attrsQueryCore_head attrs) (lang_suffix_head _)
  | some v =>
    cases force with
    | true =>
      simp only [hl, hcss, Bool.true_or, if_true]
      exact amp_head_append _ _ (attrsQueryCore_head attrs) (lang_suffix_head _)
    | false =>
      simp only [hl, hcss, Bool.true_or, if_true]
      exact amp_head_append _ _ (attrsQueryCore_head attrs) (lang_suffix_head _)

/-- Characters of a packed list. -/
theorem toList_mk (l : List Char) : (String.mk l).toList = l := rfl

/-- Packing a string's characters gives the string back. -/
theorem mk_data (s : String) : String.mk s.data = s := rfl

/-- Decoding a well-formed style address: the path part is recovered, the
src parameter reads back the emitted marker, and the scoped flag reflects
exactly the optional fragments carrying a scoped key. -/
theorem parse_frags_core (keyL I M : List Char) (opt : List (List Char)) (t : List Char)
    (hkey : ('?' : Char) ∉ keyL) (hI : ('&' : Char) ∉ I) (hM : ('&' : Char) ∉ M)
    (hopt : ∀ p ∈ opt, ('&' : Char) ∉ p ∧ fragKey p ≠ "src".toList)
    (htf : ∀ f ∈ splitOnChar '&' t,
        fragKey f ≠ "src".toList ∧ fragKey f ≠ "scoped".toList) :
    parseVueRequest (String.mk (keyL ++ '?' ::
        ((["vue".toList, "type=style".toList, "index=".toList ++ I,
           "src=".toList ++ M] ++ opt).foldr (fun p acc => p ++ '&' :: acc) t)))
      = ⟨String.mk keyL,
         { src := some (String.mk M),
           scopedFlag := opt.any fun f => fragKey f = "scoped".toList }⟩ := by
  have hparts : ∀ p ∈ (["vue".toList, "type=style".toList, "index=".toList ++ I,
      "src=".toList ++ M] ++ opt), ('&' : Char) ∉ p := by
    intro p hp
    rcases List.mem_append.mp hp with hp | hp
    · simp only [List.mem_cons, List.not_mem_nil, or_false] at hp
      rcases hp with rfl | rfl | rfl | rfl
      · decide
      · decide
      · intro hmem
        rcases List.mem_append.mp hmem with h | h
        · revert h; decide
        · exact hI h
      · intro hmem
        rcases List.mem_append.mp hmem with h | h
        · revert h; decide
        · exact hM h
    · exact (hopt p hp).1
  have hidx : "index=".toList ++ I = "index".toList ++ '=' :: I := rfl
  have hsrce : "src=".toList ++ M = "src".toList ++ '=' :: M := rfl
  have hkIdx : fragKey ("index=".toList ++ I) = "index".toList := by
    rw [hidx]; exact fragKey_of_eq_split _ _ (by decide)
  have hkSrc : fragKey ("src=".toList ++ M) = "src".toList := by
    rw [hsrce]; exact fragKey_of_eq_split _ _ (by decide)
  have hvSrc : fragValue ("src=".toList ++ M) = M := by
    rw [hsrce]; exact fragValue_of_eq_split _ _ (by decide)
  unfold parseVueRequest
  rw [toList_mk]
  dsimp only
  rw [takeWhile_append_cons _ keyL '?' _
    (fun y hy => by
      simp only [decide_eq_true_iff]
      exact fun hyc => hkey (hyc ▸ hy))
    (by decide)]
  rw [dropWhile_append_cons _ keyL '?' _
    (fun y hy => by
      simp only [decide_eq_true_iff]
      exact fun hyc => hkey (hyc ▸ hy))
    (by decide)]
  simp only [List.drop_succ_cons, List.drop_zero]
  rw [splitOnChar_build '&' t _ hparts]
  have hsrcval : lastParamValue "src".toList
      ((["vue".toList, "type=style".toList, "index=".toList ++ I,
         "src=".toList ++ M] ++ opt) ++ splitOnChar '&' t) = some M := by
    rw [lastParamValue_append, foldl_param_no_key _ _ (fun f hf => (htf f hf).1)]
    rw [show (["vue".toList, "type=style".toList, "index=".toList ++ I,
        "src=".toList ++ M] ++ opt)
      = (["vue".toList, "type=style".toList, "index=".toList ++ I,
        "src=".toList ++ M] : List (List Char)) ++ opt from rfl]
    rw [lastParamValue_append, foldl_param_no_key _ opt (fun f hf => (hopt f hf).2)]
    unfold lastParamValue
    simp only [List.foldl_cons, List.foldl_nil]
    rw [if_pos hkSrc, hvSrc]
  have hscope : hasParam "scoped".toList
      ((["vue".toList, "type=style".toList, "index=".toList ++ I,
         "src=".toList ++ M] ++ opt) ++ splitOnChar '&' t)
      = opt.any fun f => fragKey f = "scoped".toList := by
    rw [hasParam_append]
    have ht0 : hasParam "scoped".toList (splitOnChar '&' t) = false := by
      apply List.any_eq_false.mpr
      intro f hf
      simp only [decide_eq_true_iff]
      exact (htf f hf).2
    rw [ht0, Bool.or_false]
    rw [show (["vue".toList, "type=style".toList, "index=".toList ++ I,
        "src=".toList ++ M] ++ opt)
      = (["vue".toList, "type=style".toList, "index=".toList ++ I,
        "src=".toList ++ M] : List (List Char)) ++ opt from rfl]
    rw [hasParam_append]
    have hb : hasParam "scoped".toList
        (["vue".toList, "type=style".toList, "index=".toList ++ I,
          "src=".toList ++ M]) = false := by
      unfold hasParam
      simp only [List.any_cons, List.any_nil]
      rw [hkIdx, hkSrc]
      decide
    rw [hb, Bool.false_or]
    rfl
  rw [hsrcval, hscope]
  rfl

/-- The emitted style address decomposes into the base fragments, the
optional inline and scoped fragments, and the attribute tail. -/
theorem styleQuery_decomp (d : SFCDescriptor) (i : Nat) (style : SFCBlock) (asCE : Bool)
    (key tailStr : String) (t : List Char)
    (hsrc : optTruthy style.src = true) (ht : tailStr.toList = '&' :: t) :
    (key ++ styleQuery d i style asCE ++ tailStr).toList
      = key.toList ++ '?' ::
        List.foldr (fun p acc => p ++ '&' :: acc) t
          (["vue".toList, "type=style".toList,
            "index=".toList ++ (toString i).toList,
            "src=".toList ++ (if style.scopedFlag then d.id.toList else "true".toList)]
           ++ ((if asCE then ["inline".toList] else [])
               ++ (if style.scopedFlag then ["scoped=".toList ++ d.id.toList] else []))) := by
  have e0 : ("?vue&type=style&index=" : String).toList
      = '?' :: ("vue".toList ++ '&' :: ("type=style".toList ++ '&' :: "index=".toList)) := rfl
  have e1 : ("&src=" : String).toList = '&' :: "src=".toList := rfl
  have e2 : ("&src=true" : String).toList = '&' :: ("src=".toList ++ "true".toList) := rfl
  have e3 : ("&inline" : String).toList = '&' :: "inline".toList := rfl
  have e4 : ("&scoped=" : String).toList = '&' :: "scoped=".toList := rfl
  cases hscoped : style.scopedFlag <;> cases asCE <;>
    simp [styleQuery, styleSrcQuery, hsrc, hscoped, str_toList_append, ht,
      e0, e1, e2, e3, e4, List.append_assoc] <;> exact ht

/-- C8: the encoder's src marker and the cache's external-link key agree
and the reverse lookup round-trips — for every style block with a
non-empty src, the marker is the owner id when scoped and the text true
otherwise, decoding the served address recovers the linked path, the
marker and the scoped flag, and getSrcDescriptor on that decoded pair
returns the owner descriptor registered by linkSrcToDescriptor. -/
theorem src_link_roundtrip
    (resolve : String → String → Option String) (st : CacheState)
    (d : SFCDescriptor) (i : Nat) (style : SFCBlock) (asCE : Bool) (srcP : String)
    (hsrc : style.src = some srcP) (hsrcne : srcP ≠ "")
    (hI : ('&' : Char) ∉ (toString i).toList)
    (hid : ('&' : Char) ∉ d.id.toList)
    (hattrs : ∀ f ∈ queryFrags (attrsToQuery style.attrs (some "css") false),
        fragKey f ≠ "src".toList ∧ fragKey f ≠ "scoped".toList) :
    styleSrcQuery d style
      = (if style.scopedFlag then "&src=" ++ d.id else "&src=true")
    ∧ (parseVueRequest (servedStyleAddress resolve srcP d i style asCE)).filename
        = resolvedSrcKey resolve srcP d
    ∧ (parseVueRequest (servedStyleAddress resolve srcP d i style asCE)).query.src
        = some (if style.scopedFlag then d.id else "true")
    ∧ (parseVueRequest (servedStyleAddress resolve srcP d i style asCE)).query.scopedFlag
        = style.scopedFlag
    ∧ getSrcDescriptor (linkSrcToDescriptor resolve st srcP d style.scopedFlag)
        (parseVueRequest (servedStyleAddress resolve srcP d i style asCE)).filename
        (parseVueRequest (servedStyleAddress resolve srcP d i style asCE)).query
        = some d := by
  have hsrcT : optTruthy style.src = true := by
    rw [hsrc]
    simp [optTruthy, hsrcne]
  obtain ⟨t, ht⟩ := attrsToQuery_css_head style.attrs false
  have htf : ∀ f ∈ splitOnChar '&' t,
      fragKey f ≠ "src".toList ∧ fragKey f ≠ "scoped".toList := by
    have hq : queryFrags (attrsToQuery style.attrs (some "css") false)
        = splitOnChar '&' t := by
      unfold queryFrags
      rw [ht]
      rfl
    rw [hq] at hattrs
    exact hattrs
  have hkeyq : ('?' : Char) ∉ (resolvedSrcKey resolve srcP d).toList :=
    stripQuery_no_qmark _
  have hM : ('&' : Char) ∉ (if style.scopedFlag then d.id.toList else "true".toList) := by
    cases hscoped : style.scopedFlag
    · simp only [if_neg Bool.false_ne_true]
      decide
    · simpa using hid
  have hopt : ∀ p ∈ ((if asCE then ["inline".toList] else [])
      ++ (if style.scopedFlag then ["scoped=".toList ++ d.id.toList] else [])),
      ('&' : Char) ∉ p ∧ fragKey p ≠ "src".toList := by
    intro p hp
    rcases List.mem_append.mp hp with hp | hp
    · cases asCE with
      | false => cases hp
      | true =>
        simp only [if_true, List.mem_singleton] at hp
        subst hp
        exact ⟨by decide, by decide⟩
    · cases hscoped : style.scopedFlag with
      | false => rw [hscoped] at hp; cases hp
      | true =>
        rw [hscoped] at hp
        simp only [if_true, List.mem_singleton] at hp
        subst hp
        constructor
        · intro hmem
          rcases List.mem_append.mp hmem with h | h
          · revert h; decide
          · exact hid h
        · rw [show "scoped=".toList ++ d.id.toList
              = "scoped".toList ++ '=' :: d.id.toList from rfl]
          rw [fragKey_of_eq_split _ _ (by decide)]
          decide
  have haddr : servedStyleAddress resolve srcP d i style asCE
      = String.mk ((resolvedSrcKey resolve srcP d).toList ++ '?' ::
          List.foldr (fun p acc => p ++ '&' :: acc) t
            (["vue".toList, "type=style".toList,
              "index=".toList ++ (toString i).toList,
              "src=".toList ++ (if style.scopedFlag then d.id.toList else "true".toList)]
             ++ ((if asCE then ["inline".toList] else [])
                 ++ (if style.scopedFlag then ["scoped=".toList ++ d.id.toList] else [])))) := by
    conv_lhs => rw [show servedStyleAddress resolve srcP d i style asCE
      = String.mk (servedStyleAddress resolve srcP d i style asCE).toList from rfl]
    rw [show (servedStyleAddress resolve srcP d i style asCE).toList
      = (resolvedSrcKey resolve srcP d ++ styleQuery d i style asCE ++
          attrsToQuery style.attrs (some "css") false).toList from rfl]
    rw [styleQuery_decomp d i style asCE _ _ t hsrcT ht]
  rw [haddr, parse_frags_core _ _ _ _ t hkeyq hI hM hopt htf]
  have hksc : fragKey ('s' :: 'c' :: 'o' :: 'p' :: 'e' :: 'd' :: '=' :: d.id.data)
      = "scoped".toList := fragKey_of_eq_split "scoped".toList d.id.data (by decide)
  have hany : (((if asCE then ["inline".toList] else [])
      ++ (if style.scopedFlag then ["scoped=".toList ++ d.id.toList] else [])).any
        fun f => fragKey f = "scoped".toList) = style.scopedFlag := by
    cases hscoped : style.scopedFlag <;> cases asCE <;>
      [skip; skip; skip; skip] <;>
      simp [List.any_append, List.any_cons, List.any_nil, hksc]
    all_goals decide
  refine ⟨by simp [styleSrcQuery, hsrcT], rfl, ?_, ?_, ?_⟩
  · cases hscoped : style.scopedFlag <;> simp [hscoped]
  · simpa using hany
  · rw [hany]
    cases hscoped : style.scopedFlag with
    | false =>
      simp [getSrcDescriptor, linkSrcToDescriptor, setSrcDescriptor,
        resolvedSrcKey, mk_data, mapGet_mapSet]
    | true =>
      simp [getSrcDescriptor, linkSrcToDescriptor, setSrcDescriptor,
        resolvedSrcKey, optText, mk_data, mapGet_mapSet]

/-- Witness for C8 at the scoped src-linked fixture. -/
theorem src_link_roundtrip_witness :
    exSrcStyle.src = some "./foo.css"
    ∧ (∀ f ∈ queryFrags (attrsToQuery exSrcStyle.attrs (some "css") false),
        fragKey f ≠ "src".toList ∧ fragKey f ≠ "scoped".toList)
    ∧ getSrcDescriptor
        (linkSrcToDescriptor exResolve {} "./foo.css" exSrcOwner exSrcStyle.scopedFlag)
        (parseVueRequest
          (servedStyleAddress exResolve "./foo.css" exSrcOwner 0 exSrcStyle false)).filename
        (parseVueRequest
          (servedStyleAddress exResolve "./foo.css" exSrcOwner 0 exSrcStyle false)).query
        = some exSrcOwner :=
  ⟨rfl, by decide,
    (src_link_roundtrip exResolve {} exSrcOwner 0 exSrcStyle false "./foo.css"
      rfl (by decide) (by decide) (by decide) (by decide)).2.2.2.2⟩
